import Mathlib

/-!
Shallow embedding of the update store and long-poll client of a Telegram
bot-API test double (`TelegramServer` plus `TelegramClient.getUpdates` in the
source).  Store operations become pure functions over an explicit
`ServerState`; the wall-clock reads (`new Date().getTime()`) become an
explicit `now : Int` argument; JS exceptions (a failed `assert`, a
`TypeError` from dereferencing `undefined`) are modelled with
`Except`/`Option`, thrown before any mutation exactly where the source
throws.
-/

/-- Chat object inside a message payload (`message.chat`). -/
structure Chat where
  id : Int
  deriving DecidableEq

/-- The load-bearing fields of a message payload (`message` in the source):
`botToken` (required on user messages, may be absent), `chat` (may be absent;
`deleteMessage` dereferences `chat.id` unguarded) and the API-level `date`.
The rest of the payload is opaque to the store. -/
structure Payload where
  botToken : Option String
  chat : Option Chat
  date : Int
  deriving DecidableEq

/-- A stored record: the `add` object pushed by
`addBotMessage`/`addUserMessage`. -/
structure Record where
  time : Int
  botToken : String
  message : Payload
  updateId : Nat
  messageId : Nat
  isRead : Bool
  deriving DecidableEq

/-- The mutable state of a `TelegramServer`: the two identity counters, the
two logs, the TTL (`config.storeTimeout`, already converted to milliseconds)
and the `started` flag read by the eviction daemon. -/
structure ServerState where
  updateId : Nat
  messageId : Nat
  userMessages : List Record
  botMessages : List Record
  storeTimeout : Int
  started : Bool
  deriving DecidableEq

/-- Server state right after the constructor: both counters at 1, both logs
empty, not yet started. -/
def initialState (storeTimeout : Int) : ServerState :=
  { updateId := 1, messageId := 1, userMessages := [], botMessages := [],
    storeTimeout := storeTimeout, started := false }

/-- Error taxonomy of the store: a failed `assert.ok` surfaces synchronously
as an `InvalidArgument` condition. -/
inductive StoreError where
  | invalidArgument
  deriving DecidableEq

/-- `addBotMessage(message, botToken)`: stamp the current time, assign the
current `updateId`/`messageId`, push at the end of the bot log, bump both
counters.  Never fails. -/
def addBotMessage (s : ServerState) (message : Payload) (botToken : String)
    (now : Int) : ServerState :=
  { s with
    botMessages := s.botMessages ++
      [{ time := now, botToken := botToken, message := message,
         updateId := s.updateId, messageId := s.messageId, isRead := false }],
    messageId := s.messageId + 1,
    updateId := s.updateId + 1 }

/-- `addUserMessage(message)`: `assert.ok(message.botToken)` throws before
any mutation when `botToken` is absent (or the empty string, which is falsy
in JS); otherwise identical to the bot variant but on the user log. -/
def addUserMessage (s : ServerState) (message : Payload) (now : Int) :
    Except StoreError ServerState :=
  match message.botToken with
  | none => .error .invalidArgument
  | some tok =>
    if tok = "" then .error .invalidArgument
    else .ok { s with
      userMessages := s.userMessages ++
        [{ time := now, botToken := tok, message := message,
           updateId := s.updateId, messageId := s.messageId, isRead := false }],
      messageId := s.messageId + 1,
      updateId := s.updateId + 1 }

/-- `messageFilter(message)`: keep records with
`message.time > millis - storeTimeout` (strict). -/
def messageFilter (storeTimeout now : Int) (m : Record) : Bool :=
  decide (now - storeTimeout < m.time)

/-- `cleanUp()`: filter both logs through `messageFilter`, independently. -/
def cleanUp (s : ServerState) (now : Int) : ServerState :=
  { s with
    userMessages := s.userMessages.filter (messageFilter s.storeTimeout now),
    botMessages := s.botMessages.filter (messageFilter s.storeTimeout now) }

/-- `ramda.prop('date')` applied to a stored record: stored records have no
top-level `date` field (the payload date lives at `message.date`), so the
lookup yields `undefined`, modelled as `none`. -/
def getUpdateDate (_r : Record) : Option Int :=
  none

/-- JS `<` where either operand may be `undefined`: any comparison involving
`undefined` is false. -/
def jsLt : Option Int → Option Int → Bool
  | some a, some b => decide (a < b)
  | _, _ => false

/-- Insertion step of a stable sort: `x` goes after every earlier element
that compares strictly below it and right before the first element that does
not, so ties keep their original relative order — the behaviour of
`ramda.sortBy` over the (stable) `Array.prototype.sort` with comparator
`aa < bb ? -1 : aa > bb ? 1 : 0`. -/
def sortInsert (lt : Record → Record → Bool) (x : Record) :
    List Record → List Record
  | [] => [x]
  | y :: ys => if lt y x then y :: sortInsert lt x ys else x :: y :: ys

/-- Stable sort used to model `ramda.sortBy`. -/
def sortByJs (lt : Record → Record → Bool) : List Record → List Record
  | [] => []
  | x :: xs => sortInsert lt x (sortByJs lt xs)

/-- `getUpdatesHistory(token)`: concatenate the bot log then the user log,
filter by `botToken` equality with the token, and sort by `prop('date')` of
the record (a field that stored records do not have). -/
def getUpdatesHistory (s : ServerState) (token : String) : List Record :=
  sortByJs (fun a b => jsLt (getUpdateDate a) (getUpdateDate b))
    ((s.botMessages ++ s.userMessages).filter (fun r => r.botToken == token))

/-- The predicate of `deleteMessage`:
`update.message.chat.id === chatId && update.messageId === messageId`.
`none` models the `TypeError` thrown when `message.chat` is `undefined`. -/
def isMessageToDelete (chatId : Int) (messageId : Nat) (update : Record) :
    Option Bool :=
  match update.message.chat with
  | none => none
  | some chat => some (chat.id == chatId && update.messageId == messageId)

/-- Boolean version of the delete predicate, defined only to state theorems:
false where `chat` is absent (where the JS predicate would throw instead). -/
def matchesDelete (chatId : Int) (messageId : Nat) (r : Record) : Bool :=
  match r.message.chat with
  | none => false
  | some chat => chat.id == chatId && r.messageId == messageId

/-- `Array.prototype.find` with a predicate that can throw: `none` is a
propagated `TypeError`, `some none` means "no match", `some (some r)` the
first match. -/
def findOrThrow (p : Record → Option Bool) : List Record → Option (Option Record)
  | [] => some none
  | x :: xs =>
    match p x with
    | none => none
    | some true => some (some x)
    | some false => findOrThrow p xs

/-- `removeUserMessage(updateId)`: drop user-log records with this
`updateId`. -/
def removeUserMessage (s : ServerState) (updateId : Nat) : ServerState :=
  { s with userMessages :=
      s.userMessages.filter (fun update => update.updateId != updateId) }

/-- `removeBotMessage(updateId)`: drop bot-log records with this
`updateId`. -/
def removeBotMessage (s : ServerState) (updateId : Nat) : ServerState :=
  { s with botMessages :=
      s.botMessages.filter (fun update => update.updateId != updateId) }

/-- `deleteMessage(chatId, messageId)`: search the user log first, then the
bot log; remove the found record from its log by `updateId` and return
`true`, else `false`.  `none` models a thrown `TypeError`. -/
def deleteMessage (s : ServerState) (chatId : Int) (messageId : Nat) :
    Option (Bool × ServerState) :=
  match findOrThrow (isMessageToDelete chatId messageId) s.userMessages with
  | none => none
  | some (some userUpdate) => some (true, removeUserMessage s userUpdate.updateId)
  | some none =>
    match findOrThrow (isMessageToDelete chatId messageId) s.botMessages with
    | none => none
    | some (some botUpdate) => some (true, removeBotMessage s botUpdate.updateId)
    | some none => some (false, s)

/-- `close()`: reset both logs to empty; the counters are untouched. -/
def close (s : ServerState) : ServerState :=
  { s with userMessages := [], botMessages := [] }

/-- `cleanUpDaemon()` under an explicit-time model: an invocation at time
`now` proceeds only while the `started` flag is still set (`now < stopTime`,
where `stopTime` is the instant `stop()`'s shutdown callback clears the
flag); it then sweeps (`cleanUp`) and schedules the next invocation
`config.storeTimeout` milliseconds later.  Returns the final state and the
times at which sweeps executed; `fuel` bounds how many invocations are
modelled. -/
def cleanUpDaemonRun (stopTime : Int) : Nat → Int → ServerState → ServerState × List Int
  | 0, _, s => (s, [])
  | fuel + 1, now, s =>
    if now < stopTime then
      let next := cleanUpDaemonRun stopTime fuel (now + s.storeTimeout) (cleanUp s now)
      (next.1, now :: next.2)
    else (s, [])

/-- Outcome of the long-poll loop: a non-empty batch of updates, or the
bluebird `.timeout` rejection carrying the configured timeout value. -/
inductive PollResult (U : Type) where
  | ok (updates : List U)
  | timeout (ms : Nat)
  deriving DecidableEq

/-- The retry loop of `TelegramClient.getUpdates` under a discrete-time
model: attempt `n` happens at time `n * interval` (queries are instantaneous
and `Promise.delay(interval)` separates attempts), and the
`.timeout(timeout)` rejection wins as soon as the elapsed time reaches
`timeout`.  `results n` is the server's answer to the `n`-th `/getUpdates`
query; `fuel` bounds the recursion depth. -/
def getUpdatesLoop {U : Type} (results : Nat → List U) (interval timeout : Nat) :
    Nat → Nat → PollResult U
  | _, 0 => .timeout timeout
  | n, fuel + 1 =>
    if timeout ≤ n * interval then .timeout timeout
    else if (results n).isEmpty then getUpdatesLoop results interval timeout (n + 1) fuel
    else .ok (results n)

/-- `TelegramClient.getUpdates`: run the retry loop from attempt 0, with
enough fuel to reach the deadline. -/
def getUpdates {U : Type} (results : Nat → List U) (interval timeout : Nat) :
    PollResult U :=
  getUpdatesLoop results interval timeout 0 (timeout / interval + 2)

/-- The store operations a caller can perform during the server's life. -/
inductive Op where
  | bot (message : Payload) (botToken : String) (now : Int)
  | user (message : Payload) (now : Int)
  | sweep (now : Int)
  | del (chatId : Int) (messageId : Nat)
  | reset
  deriving DecidableEq

/-- Effect of one operation on the server state.  Operations that throw
(`addUserMessage` with a falsy token, `deleteMessage` hitting a chat-less
record) leave the state unchanged: in the source the exception propagates
before any mutation. -/
def applyOp (s : ServerState) : Op → ServerState
  | .bot m tok now => addBotMessage s m tok now
  | .user m now =>
    match addUserMessage s m now with
    | .ok s' => s'
    | .error _ => s
  | .sweep now => cleanUp s now
  | .del chatId messageId =>
    match deleteMessage s chatId messageId with
    | some (_, s') => s'
    | none => s
  | .reset => close s

/-- Run a sequence of operations. -/
def run (s : ServerState) (ops : List Op) : ServerState :=
  ops.foldl applyOp s

/-- Does this operation successfully append (and hence consume one
`updateId` and one `messageId`)? -/
def opAssigns : Op → Bool
  | .bot _ _ _ => true
  | .user m _ =>
    match m.botToken with
    | none => false
    | some tok => tok != ""
  | _ => false

/-- The identities (as read off by `f`) assigned by a run, in call order. -/
def assignedIds (f : ServerState → Nat) (s : ServerState) : List Op → List Nat
  | [] => []
  | op :: ops =>
    (if opAssigns op then [f s] else []) ++ assignedIds f (applyOp s op) ops

/-- The `updateId`s assigned by a run, in call order. -/
def assignedUpdateIds : ServerState → List Op → List Nat :=
  assignedIds (fun s => s.updateId)

/-- The `messageId`s assigned by a run, in call order. -/
def assignedMessageIds : ServerState → List Op → List Nat :=
  assignedIds (fun s => s.messageId)

/-- Concrete chat used by the example states. -/
def chatOne : Chat := { id := 1 }

/-- A well-formed payload for chat 1. -/
def payloadA : Payload := { botToken := some "token", chat := some chatOne, date := 0 }

/-- A payload with no `botToken` field. -/
def tokenlessPayload : Payload := { botToken := none, chat := some chatOne, date := 0 }

/-- A payload with no `chat` object. -/
def chatlessPayload : Payload := { botToken := some "token", chat := none, date := 0 }

/-- A user-log record matching chat 1, messageId 1. -/
def exUserRecord : Record :=
  { time := 0, botToken := "token", message := payloadA,
    updateId := 1, messageId := 1, isRead := false }

/-- A bot-log record matching chat 1, messageId 1. -/
def exBotRecord : Record :=
  { time := 0, botToken := "token", message := payloadA,
    updateId := 2, messageId := 1, isRead := false }

/-- A store holding one matching user record and one matching bot record for
chat 1, messageId 1 — the duplicate situation the deletion tie-break is
about. -/
def exTieState : ServerState :=
  { updateId := 3, messageId := 2, userMessages := [exUserRecord],
    botMessages := [exBotRecord], storeTimeout := 60000, started := true }

/-- A payload for chat 1 with the given API-level date. -/
def payloadDate (d : Int) : Payload :=
  { botToken := some "token", chat := some chatOne, date := d }

/-- Appended first, carries the later payload date 5. -/
def historyRecordLate : Record :=
  { time := 0, botToken := "token", message := payloadDate 5,
    updateId := 1, messageId := 1, isRead := false }

/-- Appended second, carries the earlier payload date 3. -/
def historyRecordEarly : Record :=
  { time := 1, botToken := "token", message := payloadDate 3,
    updateId := 2, messageId := 2, isRead := false }

/-- Failing input for the history-sorting claim: the record with payload date
5 was appended before the record with payload date 3. -/
def exHistoryState : ServerState :=
  { updateId := 3, messageId := 3,
    userMessages := [historyRecordLate, historyRecordEarly],
    botMessages := [], storeTimeout := 60000, started := true }

/-- A record whose payload has no `chat` object. -/
def chatlessRecord : Record :=
  { time := 0, botToken := "token", message := chatlessPayload,
    updateId := 1, messageId := 1, isRead := false }

/-- A store whose user log holds a chat-less record. -/
def exChatlessState : ServerState :=
  { updateId := 2, messageId := 2, userMessages := [chatlessRecord],
    botMessages := [], storeTimeout := 60000, started := true }

/-- The record created by the very first bot append after construction. -/
def firstBotRecord : Record :=
  { time := 0, botToken := "tok", message := payloadA,
    updateId := 1, messageId := 1, isRead := false }

/-- `exTieState` after its user-side record has been deleted. -/
def stateAfterFirstDelete : ServerState :=
  { exTieState with userMessages := [] }

/-- `exTieState` after both its records have been deleted. -/
def stateAfterSecondDelete : ServerState :=
  { exTieState with userMessages := [], botMessages := [] }

/-- With all sort keys `undefined`, the comparator never orders strictly, so
the stable insertion places each element in front of the already-sorted
tail. -/
theorem sortInsert_of_lt_false (lt : Record → Record → Bool)
    (h : ∀ a b, lt a b = false) (x : Record) (l : List Record) :
    sortInsert lt x l = x :: l := by
  cases l with
  | nil => rfl
  | cons y ys => simp [sortInsert, h]

/-- A stable sort whose comparator never orders strictly is the identity. -/
theorem sortByJs_of_lt_false (lt : Record → Record → Bool)
    (h : ∀ a b, lt a b = false) (l : List Record) :
    sortByJs lt l = l := by
  induction l with
  | nil => rfl
  | cons x xs ih => simp [sortByJs, ih, sortInsert_of_lt_false lt h]

/-- What `getUpdatesHistory` actually computes: the `sortBy` is inert because
stored records have no `date` field, so the result is the bot log followed by
the user log, filtered by token, in insertion order. -/
theorem getUpdatesHistory_eq (s : ServerState) (token : String) :
    getUpdatesHistory s token =
      (s.botMessages ++ s.userMessages).filter (fun r => r.botToken == token) := by
  unfold getUpdatesHistory
  exact sortByJs_of_lt_false _ (fun a b => rfl) _

/-- When the record's `chat` is present, the delete predicate evaluates
without throwing, to its boolean version. -/
theorem isMessageToDelete_eq_some (chatId : Int) (mid : Nat) (r : Record)
    (h : (r.message.chat).isSome) :
    isMessageToDelete chatId mid r = some (matchesDelete chatId mid r) := by
  cases hc : r.message.chat with
  | none => rw [hc] at h; simp at h
  | some chat => simp [isMessageToDelete, matchesDelete, hc]

/-- On a list of records whose `chat` objects are all present, the fallible
find coincides with `List.find?` of the boolean predicate. -/
theorem findOrThrow_eq_find? (chatId : Int) (mid : Nat) (l : List Record)
    (h : ∀ r ∈ l, (r.message.chat).isSome) :
    findOrThrow (isMessageToDelete chatId mid) l =
      some (l.find? (matchesDelete chatId mid)) := by
  induction l with
  | nil => rfl
  | cons x xs ih =>
    have hx := isMessageToDelete_eq_some chatId mid x (h x (by simp))
    cases hm : matchesDelete chatId mid x with
    | true =>
      rw [hm] at hx
      simp [findOrThrow, hx, List.find?, hm]
    | false =>
      rw [hm] at hx
      simp [findOrThrow, hx, List.find?, hm]
      exact ih (fun r hr => h r (by simp [hr]))

/-- If the predicate never matches but throws somewhere on the list, the
fallible find throws. -/
theorem findOrThrow_eq_none (p : Record → Option Bool) (l : List Record)
    (hnt : ∀ r ∈ l, p r ≠ some true) (hbad : ∃ r ∈ l, p r = none) :
    findOrThrow p l = none := by
  induction l with
  | nil => simp at hbad
  | cons x xs ih =>
    cases hx : p x with
    | none => simp [findOrThrow, hx]
    | some b =>
      cases b with
      | true => exact absurd hx (hnt x (by simp))
      | false =>
        simp [findOrThrow, hx]
        rcases hbad with ⟨r, hr, hrn⟩
        rcases List.mem_cons.1 hr with rfl | hr'
        · rw [hx] at hrn; cases hrn
        · exact ih (fun r hr => hnt r (by simp [hr])) ⟨r, hr', hrn⟩

/-- If the predicate evaluates to `false` everywhere, the fallible find
reports "no match". -/
theorem findOrThrow_eq_some_none (p : Record → Option Bool) (l : List Record)
    (h : ∀ r ∈ l, p r = some false) :
    findOrThrow p l = some none := by
  induction l with
  | nil => rfl
  | cons x xs ih =>
    simp [findOrThrow, h x (by simp)]
    exact ih (fun r hr => h r (by simp [hr]))

/-- If the predicate never throws on the list, the fallible find returns. -/
theorem findOrThrow_isSome (p : Record → Option Bool) (l : List Record)
    (h : ∀ r ∈ l, p r ≠ none) :
    (findOrThrow p l).isSome := by
  induction l with
  | nil => simp [findOrThrow]
  | cons x xs ih =>
    cases hx : p x with
    | none => exact absurd hx (h x (by simp))
    | some b =>
      cases b with
      | true => simp [findOrThrow, hx]
      | false =>
        simp [findOrThrow, hx]
        exact ih (fun r hr => h r (by simp [hr]))

/-- A list whose filtrate is the singleton `[u]` finds `u` first. -/
theorem find?_of_filter_singleton {α : Type} (p : α → Bool) (l : List α) (u : α)
    (h : l.filter p = [u]) : l.find? p = some u := by
  induction l with
  | nil => simp at h
  | cons x xs ih =>
    cases hx : p x with
    | true =>
      rw [List.filter_cons_of_pos hx] at h
      have hxu : x = u := (List.cons_eq_cons.1 h).1
      subst hxu
      simp [List.find?, hx]
    | false =>
      rw [List.filter_cons_of_neg (by simp [hx])] at h
      simp [List.find?, hx]
      exact ih h

/-- `deleteMessage` never touches the identity counters. -/
theorem deleteMessage_counters (s : ServerState) (chatId : Int) (mid : Nat)
    (b : Bool) (s' : ServerState) (h : deleteMessage s chatId mid = some (b, s')) :
    s'.updateId = s.updateId ∧ s'.messageId = s.messageId := by
  unfold deleteMessage at h
  cases h1 : findOrThrow (isMessageToDelete chatId mid) s.userMessages with
  | none => rw [h1] at h; cases h
  | some o1 =>
    rw [h1] at h
    cases o1 with
    | some u =>
      simp at h
      rw [← h.2]
      exact ⟨rfl, rfl⟩
    | none =>
      cases h2 : findOrThrow (isMessageToDelete chatId mid) s.botMessages with
      | none => rw [h2] at h; cases h
      | some o2 =>
        rw [h2] at h
        cases o2 with
        | some bu =>
          simp at h
          rw [← h.2]
          exact ⟨rfl, rfl⟩
        | none =>
          simp at h
          rw [← h.2]
          exact ⟨rfl, rfl⟩

/-- Every operation leaves `updateId` unchanged or increments it. -/
theorem updateId_applyOp_le (s : ServerState) (op : Op) :
    s.updateId ≤ (applyOp s op).updateId := by
  cases op with
  | bot m tok now => simp [applyOp, addBotMessage]
  | user m now =>
    cases hm : m.botToken with
    | none => simp [applyOp, addUserMessage, hm]
    | some tok =>
      by_cases ht : tok = ""
      · simp [applyOp, addUserMessage, hm, ht]
      · simp [applyOp, addUserMessage, hm, ht]
  | sweep now => simp [applyOp, cleanUp]
  | del chatId mid =>
    cases hd : deleteMessage s chatId mid with
    | none => simp [applyOp, hd]
    | some p =>
      simp [applyOp, hd]
      exact le_of_eq (deleteMessage_counters s chatId mid p.1 p.2 (by rw [hd])).1.symm
  | reset => simp [applyOp, close]

/-- Every operation leaves `messageId` unchanged or increments it. -/
theorem messageId_applyOp_le (s : ServerState) (op : Op) :
    s.messageId ≤ (applyOp s op).messageId := by
  cases op with
  | bot m tok now => simp [applyOp, addBotMessage]
  | user m now =>
    cases hm : m.botToken with
    | none => simp [applyOp, addUserMessage, hm]
    | some tok =>
      by_cases ht : tok = ""
      · simp [applyOp, addUserMessage, hm, ht]
      · simp [applyOp, addUserMessage, hm, ht]
  | sweep now => simp [applyOp, cleanUp]
  | del chatId mid =>
    cases hd : deleteMessage s chatId mid with
    | none => simp [applyOp, hd]
    | some p =>
      simp [applyOp, hd]
      exact le_of_eq (deleteMessage_counters s chatId mid p.1 p.2 (by rw [hd])).2.symm
  | reset => simp [applyOp, close]

/-- A successful append increments `updateId` by exactly one. -/
theorem updateId_applyOp_assign (s : ServerState) (op : Op)
    (h : opAssigns op = true) : (applyOp s op).updateId = s.updateId + 1 := by
  cases op with
  | bot m tok now => simp [applyOp, addBotMessage]
  | user m now =>
    cases hm : m.botToken with
    | none => simp [opAssigns, hm] at h
    | some tok =>
      have ht : tok ≠ "" := by
        simp [opAssigns, hm] at h
        simpa using h
      simp [applyOp, addUserMessage, hm, ht]
  | sweep now => simp [opAssigns] at h
  | del chatId mid => simp [opAssigns] at h
  | reset => simp [opAssigns] at h

/-- A successful append increments `messageId` by exactly one. -/
theorem messageId_applyOp_assign (s : ServerState) (op : Op)
    (h : opAssigns op = true) : (applyOp s op).messageId = s.messageId + 1 := by
  cases op with
  | bot m tok now => simp [applyOp, addBotMessage]
  | user m now =>
    cases hm : m.botToken with
    | none => simp [opAssigns, hm] at h
    | some tok =>
      have ht : tok ≠ "" := by
        simp [opAssigns, hm] at h
        simpa using h
      simp [applyOp, addUserMessage, hm, ht]
  | sweep now => simp [opAssigns] at h
  | del chatId mid => simp [opAssigns] at h
  | reset => simp [opAssigns] at h

/-- Counters never decrease along a whole run. -/
theorem run_counter_le (f : ServerState → Nat)
    (hmono : ∀ s op, f s ≤ f (applyOp s op)) :
    ∀ (ops : List Op) (s : ServerState), f s ≤ f (run s ops) := by
  intro ops
  induction ops with
  | nil => intro s; simp [run]
  | cons op ops ih =>
    intro s
    calc f s ≤ f (applyOp s op) := hmono s op
    _ ≤ f (run (applyOp s op) ops) := ih (applyOp s op)

/-- Every identity assigned during a run is at least the counter's starting
value. -/
theorem assignedIds_ge (f : ServerState → Nat)
    (hmono : ∀ s op, f s ≤ f (applyOp s op)) :
    ∀ (ops : List Op) (s : ServerState) (x : Nat),
      x ∈ assignedIds f s ops → f s ≤ x := by
  intro ops
  induction ops with
  | nil => intro s x hx; simp [assignedIds] at hx
  | cons op ops ih =>
    intro s x hx
    simp only [assignedIds, List.mem_append] at hx
    rcases hx with hx | hx
    · rcases (by by_cases h : opAssigns op <;> simp [h] at hx ⊢ <;> exact hx :
        x = f s) with rfl
      exact le_refl _
    · calc f s ≤ f (applyOp s op) := hmono s op
      _ ≤ x := ih (applyOp s op) x hx

/-- The identities assigned along a run are strictly increasing (and hence
pairwise distinct). -/
theorem assignedIds_pairwise (f : ServerState → Nat)
    (hmono : ∀ s op, f s ≤ f (applyOp s op))
    (hinc : ∀ s op, opAssigns op = true → f (applyOp s op) = f s + 1) :
    ∀ (ops : List Op) (s : ServerState),
      (assignedIds f s ops).Pairwise (· < ·) := by
  intro ops
  induction ops with
  | nil => intro s; simp [assignedIds]
  | cons op ops ih =>
    intro s
    by_cases h : opAssigns op
    · simp only [assignedIds, h, if_pos]
      rw [List.singleton_append, List.pairwise_cons]
      refine ⟨?_, ih (applyOp s op)⟩
      intro x hx
      have h1 : f (applyOp s op) ≤ x := assignedIds_ge f hmono ops (applyOp s op) x hx
      have h2 : f (applyOp s op) = f s + 1 := hinc s op h
      omega
    · simp only [assignedIds, h, if_neg, Bool.false_eq_true, not_false_iff,
        List.nil_append]
      exact ih (applyOp s op)

/-- Every identity assigned during a run is strictly below the counter's
final value. -/
theorem assignedIds_lt_run (f : ServerState → Nat)
    (hmono : ∀ s op, f s ≤ f (applyOp s op))
    (hinc : ∀ s op, opAssigns op = true → f (applyOp s op) = f s + 1) :
    ∀ (ops : List Op) (s : ServerState) (x : Nat),
      x ∈ assignedIds f s ops → x < f (run s ops) := by
  intro ops
  induction ops with
  | nil => intro s x hx; simp [assignedIds] at hx
  | cons op ops ih =>
    intro s x hx
    simp only [assignedIds, List.mem_append] at hx
    have hrun : run s (op :: ops) = run (applyOp s op) ops := rfl
    rcases hx with hx | hx
    · have hxe : x = f s := by
        by_cases h : opAssigns op <;> simp [h] at hx ⊢ <;> exact hx
      have h2 : f (applyOp s op) = f s + 1 := by
        apply hinc
        by_cases h : opAssigns op
        · exact h
        · simp [h] at hx
      have h3 : f (applyOp s op) ≤ f (run (applyOp s op) ops) :=
        run_counter_le f hmono ops (applyOp s op)
      rw [hrun]
      omega
    · rw [hrun]
      exact ih (applyOp s op) x hx

/-- The logs after a (non-throwing) `deleteMessage` are made of records of
the corresponding original logs. -/
theorem deleteMessage_mem (s : ServerState) (chatId : Int) (mid : Nat)
    (b : Bool) (s' : ServerState) (h : deleteMessage s chatId mid = some (b, s')) :
    (∀ r ∈ s'.userMessages, r ∈ s.userMessages) ∧
    (∀ r ∈ s'.botMessages, r ∈ s.botMessages) := by
  unfold deleteMessage at h
  cases h1 : findOrThrow (isMessageToDelete chatId mid) s.userMessages with
  | none => rw [h1] at h; cases h
  | some o1 =>
    rw [h1] at h
    cases o1 with
    | some u =>
      simp at h
      rw [← h.2]
      constructor
      · intro r hr
        exact (List.mem_filter.1 hr).1
      · intro r hr
        exact hr
    | none =>
      cases h2 : findOrThrow (isMessageToDelete chatId mid) s.botMessages with
      | none => rw [h2] at h; cases h
      | some o2 =>
        rw [h2] at h
        cases o2 with
        | some bu =>
          simp at h
          rw [← h.2]
          constructor
          · intro r hr
            exact hr
          · intro r hr
            exact (List.mem_filter.1 hr).1
        | none =>
          simp at h
          rw [← h.2]
          exact ⟨fun r hr => hr, fun r hr => hr⟩

/-- Invariant tying the two identity sequences together: the counters agree
and every stored record carries equal identities. -/
def goodIds (s : ServerState) : Prop :=
  s.updateId = s.messageId ∧
  (∀ r ∈ s.userMessages, r.updateId = r.messageId) ∧
  (∀ r ∈ s.botMessages, r.updateId = r.messageId)

/-- `goodIds` is preserved by every operation. -/
theorem goodIds_applyOp (s : ServerState) (op : Op) (h : goodIds s) :
    goodIds (applyOp s op) := by
  obtain ⟨hc, hu, hb⟩ := h
  cases op with
  | bot m tok now =>
    refine ⟨by simp [applyOp, addBotMessage, hc], ?_, ?_⟩
    · intro r hr
      exact hu r hr
    · intro r hr
      simp [applyOp, addBotMessage] at hr
      rcases hr with hr | hr
      · exact hb r hr
      · rw [hr]; exact hc
  | user m now =>
    cases hm : m.botToken with
    | none => simpa [applyOp, addUserMessage, hm] using ⟨hc, hu, hb⟩
    | some tok =>
      by_cases ht : tok = ""
      · simpa [applyOp, addUserMessage, hm, ht] using ⟨hc, hu, hb⟩
      · refine ⟨by simp [applyOp, addUserMessage, hm, ht, hc], ?_, ?_⟩
        · intro r hr
          simp [applyOp, addUserMessage, hm, ht] at hr
          rcases hr with hr | hr
          · exact hu r hr
          · rw [hr]; exact hc
        · intro r hr
          simp [applyOp, addUserMessage, hm, ht] at hr
          exact hb r hr
  | sweep now =>
    refine ⟨hc, ?_, ?_⟩
    · intro r hr
      simp [applyOp, cleanUp] at hr
      exact hu r hr.1
    · intro r hr
      simp [applyOp, cleanUp] at hr
      exact hb r hr.1
  | del chatId mid =>
    cases hd : deleteMessage s chatId mid with
    | none => simpa [applyOp, hd] using ⟨hc, hu, hb⟩
    | some p =>
      obtain ⟨b2, s2⟩ := p
      have hcount := deleteMessage_counters s chatId mid b2 s2 hd
      have hmem := deleteMessage_mem s chatId mid b2 s2 hd
      refine ⟨?_, ?_, ?_⟩
      · simp [applyOp, hd]
        rw [hcount.1, hcount.2]
        exact hc
      · intro r hr
        simp [applyOp, hd] at hr
        exact hu r (hmem.1 r hr)
      · intro r hr
        simp [applyOp, hd] at hr
        exact hb r (hmem.2 r hr)
  | reset =>
    exact ⟨hc, by simp [applyOp, close], by simp [applyOp, close]⟩

/-- `goodIds` is preserved by whole runs. -/
theorem goodIds_run (ops : List Op) :
    ∀ s : ServerState, goodIds s → goodIds (run s ops) := by
  induction ops with
  | nil => intro s h; exact h
  | cons op ops ih =>
    intro s h
    exact ih (applyOp s op) (goodIds_applyOp s op h)

/-- Every member of a list of naturals is bounded by its `foldr max 0`. -/
theorem mem_le_foldr_max (l : List Nat) (x : Nat) (hx : x ∈ l) :
    x ≤ l.foldr max 0 := by
  induction l with
  | nil => simp at hx
  | cons y ys ih =>
    rcases List.mem_cons.1 hx with rfl | hx'
    · exact le_max_left _ _
    · exact le_trans (ih hx') (le_max_right _ _)

/-- Shape of a daemon run: if any sweep happens, the first is at the start
time; consecutive sweeps are exactly `storeTimeout` apart; and every sweep
happens strictly before the instant the running flag is cleared. -/
theorem cleanUpDaemonRun_spec (stopTime : Int) :
    ∀ (fuel : Nat) (now : Int) (s : ServerState),
      ((cleanUpDaemonRun stopTime fuel now s).2.head? = none ∨
        (cleanUpDaemonRun stopTime fuel now s).2.head? = some now) ∧
      List.Chain' (fun a b => b = a + s.storeTimeout)
        (cleanUpDaemonRun stopTime fuel now s).2 ∧
      ∀ x ∈ (cleanUpDaemonRun stopTime fuel now s).2, x < stopTime := by
  intro fuel
  induction fuel with
  | zero =>
    intro now s
    simp [cleanUpDaemonRun]
  | succ fuel ih =>
    intro now s
    by_cases h : now < stopTime
    · have ihs := ih (now + s.storeTimeout) (cleanUp s now)
      have hst : (cleanUp s now).storeTimeout = s.storeTimeout := rfl
      rw [hst] at ihs
      simp only [cleanUpDaemonRun, if_pos h]
      refine ⟨Or.inr rfl, ?_, ?_⟩
      · rw [List.chain'_cons']
        refine ⟨?_, ihs.2.1⟩
        intro y hy
        rcases ihs.1 with h0 | h0
        · rw [h0] at hy; cases hy
        · rw [h0] at hy
          have hy' : now + s.storeTimeout = y := by simpa using hy
          exact hy'.symm
      · intro x hx
        rcases List.mem_cons.1 hx with rfl | hx'
        · exact h
        · exact ihs.2.2 x hx'
    · simp [cleanUpDaemonRun, h]

/-- The retry loop rejects with the timeout value exactly when every query
issued strictly before the deadline comes back empty (given enough fuel to
reach the deadline). -/
theorem getUpdatesLoop_timeout_iff {U : Type} (results : Nat → List U)
    (interval timeout : Nat) :
    ∀ (fuel n : Nat), timeout ≤ (n + fuel) * interval →
      (getUpdatesLoop results interval timeout n fuel = .timeout timeout ↔
        ∀ m, n ≤ m → m * interval < timeout → results m = []) := by
  intro fuel
  induction fuel with
  | zero =>
    intro n hf
    simp only [Nat.add_zero] at hf
    constructor
    · intro _ m hm hmt
      exfalso
      have : n * interval ≤ m * interval := Nat.mul_le_mul_right _ hm
      omega
    · intro _
      rfl
  | succ fuel ih =>
    intro n hf
    by_cases hd : timeout ≤ n * interval
    · constructor
      · intro _ m hm hmt
        exfalso
        have : n * interval ≤ m * interval := Nat.mul_le_mul_right _ hm
        omega
      · intro _
        simp [getUpdatesLoop, hd]
    · by_cases he : (results n).isEmpty
      · have hstep : getUpdatesLoop results interval timeout n (fuel + 1) =
            getUpdatesLoop results interval timeout (n + 1) fuel := by
          simp [getUpdatesLoop, hd, he]
        have hf' : timeout ≤ ((n + 1) + fuel) * interval := by
          have harr : n + (fuel + 1) = (n + 1) + fuel := by omega
          rw [harr] at hf
          exact hf
        rw [hstep, ih (n + 1) hf']
        have hre : results n = [] := List.isEmpty_iff.1 he
        constructor
        · intro h m hm hmt
          rcases Nat.eq_or_lt_of_le hm with rfl | hm'
          · exact hre
          · exact h m hm' hmt
        · intro h m hm hmt
          exact h m (by omega) hmt
      · have hstep : getUpdatesLoop results interval timeout n (fuel + 1) =
            .ok (results n) := by
          simp [getUpdatesLoop, hd, he]
        rw [hstep]
        constructor
        · intro h
          simp at h
        · intro h
          exfalso
          have h0 := h n (le_refl n) (by omega)
          exact he (by simp [h0])

/-- A successful retry loop returns the first non-empty query result. -/
theorem getUpdatesLoop_ok_first {U : Type} (results : Nat → List U)
    (interval timeout : Nat) :
    ∀ (fuel n : Nat) (l : List U),
      getUpdatesLoop results interval timeout n fuel = .ok l →
      l ≠ [] ∧ ∃ k, n ≤ k ∧ k * interval < timeout ∧ results k = l ∧
        ∀ m, n ≤ m → m < k → results m = [] := by
  intro fuel
  induction fuel with
  | zero =>
    intro n l h
    simp [getUpdatesLoop] at h
  | succ fuel ih =>
    intro n l h
    by_cases hd : timeout ≤ n * interval
    · rw [show getUpdatesLoop results interval timeout n (fuel + 1) =
          .timeout timeout from by simp [getUpdatesLoop, hd]] at h
      simp at h
    · by_cases he : (results n).isEmpty
      · rw [show getUpdatesLoop results interval timeout n (fuel + 1) =
            getUpdatesLoop results interval timeout (n + 1) fuel from by
          simp [getUpdatesLoop, hd, he]] at h
        obtain ⟨hl, k, hk1, hk2, hk3, hk4⟩ := ih (n + 1) l h
        refine ⟨hl, k, by omega, hk2, hk3, ?_⟩
        intro m hm hmk
        rcases Nat.eq_or_lt_of_le hm with rfl | hm'
        · exact List.isEmpty_iff.1 he
        · exact hk4 m hm' hmk
      · rw [show getUpdatesLoop results interval timeout n (fuel + 1) =
            .ok (results n) from by simp [getUpdatesLoop, hd, he]] at h
        have hl : results n = l := by
          simpa using h
        subst hl
        refine ⟨fun h0 => he (by simp [h0]), n, le_refl n, by omega, rfl, ?_⟩
        intro m hm hmk
        omega
  
/-- The default fuel of `getUpdates` reaches the deadline. -/
theorem timeout_fuel_sufficient (interval timeout : Nat) (hi : 0 < interval) :
    timeout ≤ (0 + (timeout / interval + 2)) * interval := by
  calc timeout = interval * (timeout / interval) + timeout % interval :=
        (Nat.div_add_mod timeout interval).symm
  _ ≤ interval * (timeout / interval) + interval :=
        Nat.add_le_add_left (Nat.le_of_lt (Nat.mod_lt timeout hi)) _
  _ ≤ interval * (timeout / interval) + (interval + interval) :=
        Nat.add_le_add_left (Nat.le_add_right interval interval) _
  _ = (0 + (timeout / interval + 2)) * interval := by ring

/-- C2: at the failing input — two same-token records appended with payload
dates 5 then 3 — `queryHistory` returns them in insertion order `[5, 3]`,
not sorted ascending by payload `date`: the `sortBy` reads a `date` field
stored records do not have, so the comparator only ever sees `undefined`. -/
theorem getUpdatesHistory_unsorted_evidence :
    (getUpdatesHistory exHistoryState "token").map (fun r => r.message.date) = [5, 3] ∧
    ¬ List.Chain' (· ≤ ·)
      ((getUpdatesHistory exHistoryState "token").map (fun r => r.message.date)) := by
  have h : (getUpdatesHistory exHistoryState "token").map (fun r => r.message.date) = [5, 3] := by
    rw [getUpdatesHistory_eq]
    rfl
  refine ⟨h, ?_⟩
  rw [h]
  intro hc
  rw [List.chain'_cons] at hc
  exact absurd hc.1 (by decide)

/-- C3: for every sequence of operations (bot and user appends in any
interleaving, with sweeps, deletions and resets mixed in), the `updateId`s
assigned are strictly increasing across both logs together, and likewise the
`messageId`s; strict increase means no identity is ever reused. -/
theorem ids_strictly_increasing (storeTimeout : Int) (ops : List Op) :
    ((assignedUpdateIds (initialState storeTimeout) ops).Pairwise (· < ·)) ∧
    ((assignedMessageIds (initialState storeTimeout) ops).Pairwise (· < ·)) :=
  ⟨assignedIds_pairwise _ updateId_applyOp_le updateId_applyOp_assign ops _,
   assignedIds_pairwise _ messageId_applyOp_le messageId_applyOp_assign ops _⟩

/-- C4: appending a user message whose payload lacks `botToken` fails with
`InvalidArgument` and leaves the store unchanged — both log lengths and both
identity counters are as before. -/
theorem addUserMessage_missing_botToken (s : ServerState) (p : Payload) (now : Int)
    (h : p.botToken = none) :
    addUserMessage s p now = .error .invalidArgument ∧
    applyOp s (.user p now) = s ∧
    (applyOp s (.user p now)).userMessages.length = s.userMessages.length ∧
    (applyOp s (.user p now)).botMessages.length = s.botMessages.length ∧
    (applyOp s (.user p now)).updateId = s.updateId ∧
    (applyOp s (.user p now)).messageId = s.messageId := by
  have h1 : addUserMessage s p now = .error .invalidArgument := by
    simp [addUserMessage, h]
  have h2 : applyOp s (.user p now) = s := by
    simp [applyOp, h1]
  exact ⟨h1, h2, by rw [h2], by rw [h2], by rw [h2], by rw [h2]⟩

/-- Witness for C4 at a concrete store and payload. -/
theorem addUserMessage_missing_botToken_witness :
    addUserMessage (initialState 60000) tokenlessPayload 0 = .error .invalidArgument ∧
    applyOp (initialState 60000) (.user tokenlessPayload 0) = initialState 60000 ∧
    (applyOp (initialState 60000) (.user tokenlessPayload 0)).userMessages.length =
      (initialState 60000).userMessages.length ∧
    (applyOp (initialState 60000) (.user tokenlessPayload 0)).botMessages.length =
      (initialState 60000).botMessages.length ∧
    (applyOp (initialState 60000) (.user tokenlessPayload 0)).updateId =
      (initialState 60000).updateId ∧
    (applyOp (initialState 60000) (.user tokenlessPayload 0)).messageId =
      (initialState 60000).messageId :=
  addUserMessage_missing_botToken (initialState 60000) tokenlessPayload 0 rfl

/-- C6: a sweep at time `now` retains, in each log independently, exactly
the records with `time > now - storeTimeout` (strict); in particular, after
a sweep at `storeTimeout + ε` a record stored at time 0 is gone from both
logs, while a record stored at `storeTimeout + ε / 2` is still present. -/
theorem cleanUp_retains_exactly (s : ServerState) (now ε : Int)
    (hε : 0 < ε) (hsmall : ε < s.storeTimeout) :
    (∀ r, r ∈ (cleanUp s now).userMessages ↔
        r ∈ s.userMessages ∧ now - s.storeTimeout < r.time) ∧
    (∀ r, r ∈ (cleanUp s now).botMessages ↔
        r ∈ s.botMessages ∧ now - s.storeTimeout < r.time) ∧
    (∀ r, r.time = 0 →
        r ∉ (cleanUp s (s.storeTimeout + ε)).userMessages ∧
        r ∉ (cleanUp s (s.storeTimeout + ε)).botMessages) ∧
    (∀ r, r.time = s.storeTimeout + ε / 2 →
        (r ∈ s.userMessages → r ∈ (cleanUp s (s.storeTimeout + ε)).userMessages) ∧
        (r ∈ s.botMessages → r ∈ (cleanUp s (s.storeTimeout + ε)).botMessages)) := by
  have hmem : ∀ (l : List Record) (t : Int) (r : Record),
      r ∈ l.filter (messageFilter s.storeTimeout t) ↔
        r ∈ l ∧ t - s.storeTimeout < r.time := by
    intro l t r
    rw [List.mem_filter]
    simp [messageFilter]
  refine ⟨fun r => hmem s.userMessages now r, fun r => hmem s.botMessages now r, ?_, ?_⟩
  · intro r hr0
    constructor
    · intro hin
      have h2 := ((hmem s.userMessages (s.storeTimeout + ε) r).1 hin).2
      rw [hr0] at h2
      omega
    · intro hin
      have h2 := ((hmem s.botMessages (s.storeTimeout + ε) r).1 hin).2
      rw [hr0] at h2
      omega
  · intro r hrt
    constructor
    · intro hr
      refine (hmem s.userMessages (s.storeTimeout + ε) r).2 ⟨hr, ?_⟩
      rw [hrt]
      omega
    · intro hr
      refine (hmem s.botMessages (s.storeTimeout + ε) r).2 ⟨hr, ?_⟩
      rw [hrt]
      omega

/-- Witness for C6: a record stored at time 0 is evicted from both logs by a
sweep at `storeTimeout + 2`. -/
theorem cleanUp_retains_exactly_witness :
    exUserRecord ∉ (cleanUp exTieState (exTieState.storeTimeout + 2)).userMessages ∧
    exUserRecord ∉ (cleanUp exTieState (exTieState.storeTimeout + 2)).botMessages :=
  (cleanUp_retains_exactly exTieState 0 2 (by decide) (by decide)).2.2.1 exUserRecord rfl

/-- C7: `close()` empties both logs and leaves both identity counters where
they were, so the `updateId` a post-reset append receives (namely the
current counter value) is strictly greater than every `updateId` issued
before the reset. -/
theorem close_preserves_counters (storeTimeout : Int) (ops : List Op)
    (p : Payload) (tok : String) (now : Int) :
    (close (run (initialState storeTimeout) ops)).userMessages = [] ∧
    (close (run (initialState storeTimeout) ops)).botMessages = [] ∧
    (close (run (initialState storeTimeout) ops)).updateId =
      (run (initialState storeTimeout) ops).updateId ∧
    (close (run (initialState storeTimeout) ops)).messageId =
      (run (initialState storeTimeout) ops).messageId ∧
    assignedUpdateIds (close (run (initialState storeTimeout) ops)) [Op.bot p tok now] =
      [(run (initialState storeTimeout) ops).updateId] ∧
    ∀ x ∈ assignedUpdateIds (initialState storeTimeout) ops,
      x < (run (initialState storeTimeout) ops).updateId := by
  refine ⟨rfl, rfl, rfl, rfl, rfl, ?_⟩
  intro x hx
  exact assignedIds_lt_run _ updateId_applyOp_le updateId_applyOp_assign ops _ x hx

/-- Witness for C7: the `updateId` 1 issued before a reset is strictly below
the counter a post-reset append would receive. -/
theorem close_preserves_counters_witness :
    1 < (run (initialState 60000) [Op.bot payloadA "tok" 0]).updateId :=
  (close_preserves_counters 60000 [Op.bot payloadA "tok" 0] payloadA "tok" 0).2.2.2.2.2
    1 (by decide)

/-- C8: the daemon sweeps and reschedules itself on the fixed period
`storeTimeout` (the TTL); it checks the running flag before each
sweep/reschedule, so every sweep happens strictly before the stop instant —
in particular at most one (here: zero) sweep can execute at or after the
flag is cleared, and the daemon never sweeps again. -/
theorem cleanUpDaemon_period_and_stop (stopTime t0 : Int) (fuel : Nat) (s : ServerState) :
    List.Chain' (fun a b => b = a + s.storeTimeout)
      (cleanUpDaemonRun stopTime fuel t0 s).2 ∧
    (∀ x ∈ (cleanUpDaemonRun stopTime fuel t0 s).2, x < stopTime) ∧
    ((cleanUpDaemonRun stopTime fuel t0 s).2.filter
        (fun x => decide (stopTime ≤ x))).length ≤ 1 := by
  have h := cleanUpDaemonRun_spec stopTime fuel t0 s
  refine ⟨h.2.1, h.2.2, ?_⟩
  have hnil : (cleanUpDaemonRun stopTime fuel t0 s).2.filter
      (fun x => decide (stopTime ≤ x)) = [] := by
    rw [List.filter_eq_nil_iff]
    intro a ha
    have := h.2.2 a ha
    simp
    omega
  rw [hnil]
  simp

/-- C9: both counters start at 1 and move in lockstep, so every record ever
stored by either append carries `updateId = messageId`. -/
theorem record_ids_coincide (storeTimeout : Int) :
    (initialState storeTimeout).updateId = 1 ∧
    (initialState storeTimeout).messageId = 1 ∧
    ∀ ops : List Op,
      (∀ r ∈ (run (initialState storeTimeout) ops).userMessages,
        r.updateId = r.messageId) ∧
      (∀ r ∈ (run (initialState storeTimeout) ops).botMessages,
        r.updateId = r.messageId) := by
  refine ⟨rfl, rfl, ?_⟩
  intro ops
  have h := goodIds_run ops (initialState storeTimeout)
    ⟨rfl, by simp [initialState], by simp [initialState]⟩
  exact ⟨h.2.1, h.2.2⟩

/-- Witness for C9: the first record appended by a bot carries equal
identities. -/
theorem record_ids_coincide_witness :
    firstBotRecord.updateId = firstBotRecord.messageId :=
  ((record_ids_coincide 60000).2.2 [Op.bot payloadA "tok" 0]).2 firstBotRecord (by decide)

/-- C5: under the discrete-time model (attempt `n` at elapsed time
`n * interval`), long-poll retrieval returns the first non-empty query
result — immediately when the very first query is non-empty — and rejects
with a `Timeout` carrying the configured timeout value exactly when no query
issued within the `timeout` deadline is non-empty. -/
theorem getUpdates_longpoll {U : Type} (results : Nat → List U)
    (interval timeout : Nat) (hi : 0 < interval) :
    (0 < timeout → results 0 ≠ [] →
      getUpdates results interval timeout = .ok (results 0)) ∧
    (∀ l, getUpdates results interval timeout = .ok l →
      l ≠ [] ∧ ∃ k, k * interval < timeout ∧ results k = l ∧
        ∀ m < k, results m = []) ∧
    (getUpdates results interval timeout = .timeout timeout ↔
      ¬ ∃ n, n * interval < timeout ∧ results n ≠ []) := by
  refine ⟨?_, ?_, ?_⟩
  · intro ht hne
    have hee : (results 0).isEmpty = false := by
      cases hres : results 0 with
      | nil => exact absurd hres hne
      | cons a l => simp
    have h0 : ¬ (timeout ≤ 0 * interval) := by omega
    unfold getUpdates
    show getUpdatesLoop results interval timeout 0 (timeout / interval + 1 + 1) =
      .ok (results 0)
    simp [getUpdatesLoop, h0, hee]
    omega
  · intro l hl
    unfold getUpdates at hl
    obtain ⟨hne, k, _, hk1, hk2, hk3⟩ :=
      getUpdatesLoop_ok_first results interval timeout (timeout / interval + 2) 0 l hl
    exact ⟨hne, k, hk1, hk2, fun m hm => hk3 m (Nat.zero_le m) hm⟩
  · have hiff := getUpdatesLoop_timeout_iff results interval timeout
      (timeout / interval + 2) 0 (timeout_fuel_sufficient interval timeout hi)
    unfold getUpdates
    rw [hiff]
    constructor
    · rintro h ⟨n, hn1, hn2⟩
      exact hn2 (h n (Nat.zero_le n) hn1)
    · intro h m _ hm
      by_contra hne
      exact h ⟨m, hm, hne⟩

/-- Witness for C5: against a permanently empty log the poll rejects with
the configured 200ms timeout, and with an immediately non-empty result it
returns that result. -/
theorem getUpdates_longpoll_witness :
    getUpdates (fun _ => ([] : List Nat)) 50 200 = .timeout 200 ∧
    getUpdates (fun _ => ([7] : List Nat)) 50 200 = .ok [7] := by
  constructor
  · exact ((getUpdates_longpoll (fun _ => ([] : List Nat)) 50 200 (by decide)).2.2).mpr
      (by rintro ⟨n, _, hn⟩; exact hn rfl)
  · exact (getUpdates_longpoll (fun _ => ([7] : List Nat)) 50 200 (by decide)).1
      (by decide) (by decide)

/-- C10: `deleteMessage` returns a boolean (never throws) for all arguments
when every stored record's payload has a `chat` object; and whenever some
stored record lacks one, there are arguments on which it throws (the match
predicate dereferences `message.chat.id` unguarded), so the precondition is
necessary. -/
theorem deleteMessage_totality (s : ServerState) :
    ((∀ r ∈ s.userMessages, (r.message.chat).isSome) →
     (∀ r ∈ s.botMessages, (r.message.chat).isSome) →
      ∀ chatId mid, (deleteMessage s chatId mid).isSome) ∧
    ((∃ r ∈ s.userMessages ++ s.botMessages, r.message.chat = none) →
      ∃ chatId mid, deleteMessage s chatId mid = none) := by
  constructor
  · intro hu hb chatId mid
    have hu' : ∀ r ∈ s.userMessages, isMessageToDelete chatId mid r ≠ none := by
      intro r hr
      rw [isMessageToDelete_eq_some chatId mid r (hu r hr)]
      simp
    have hfu := findOrThrow_isSome (isMessageToDelete chatId mid) s.userMessages hu'
    unfold deleteMessage
    cases h1 : findOrThrow (isMessageToDelete chatId mid) s.userMessages with
    | none => rw [h1] at hfu; simp at hfu
    | some o1 =>
      cases o1 with
      | some u => simp
      | none =>
        have hb' : ∀ r ∈ s.botMessages, isMessageToDelete chatId mid r ≠ none := by
          intro r hr
          rw [isMessageToDelete_eq_some chatId mid r (hb r hr)]
          simp
        have hfb := findOrThrow_isSome (isMessageToDelete chatId mid) s.botMessages hb'
        cases h2 : findOrThrow (isMessageToDelete chatId mid) s.botMessages with
        | none => rw [h2] at hfb; simp at hfb
        | some o2 =>
          cases o2 with
          | some bu => simp
          | none => simp
  · intro hbad
    set mid := ((s.userMessages ++ s.botMessages).map Record.messageId).foldr max 0 + 1
      with hmid
    refine ⟨0, mid, ?_⟩
    have hfresh : ∀ r ∈ s.userMessages ++ s.botMessages, r.messageId ≠ mid := by
      intro r hr heq
      have hle := mem_le_foldr_max ((s.userMessages ++ s.botMessages).map Record.messageId)
        r.messageId (List.mem_map_of_mem Record.messageId hr)
      omega
    have hnt : ∀ r ∈ s.userMessages ++ s.botMessages,
        isMessageToDelete 0 mid r ≠ some true := by
      intro r hr
      cases hc : r.message.chat with
      | none => simp [isMessageToDelete, hc]
      | some c =>
        have hf : (r.messageId == mid) = false := by
          rw [beq_eq_false_iff_ne]
          exact hfresh r hr
        simp [isMessageToDelete, hc, hf]
    unfold deleteMessage
    by_cases hbadu : ∃ r ∈ s.userMessages, r.message.chat = none
    · have h1 : findOrThrow (isMessageToDelete 0 mid) s.userMessages = none := by
        refine findOrThrow_eq_none _ _
          (fun r hr => hnt r (List.mem_append.2 (Or.inl hr))) ?_
        rcases hbadu with ⟨r, hr, hc⟩
        exact ⟨r, hr, by simp [isMessageToDelete, hc]⟩
      rw [h1]
    · have hup : ∀ r ∈ s.userMessages, isMessageToDelete 0 mid r = some false := by
        intro r hr
        cases hc : r.message.chat with
        | none => exact absurd ⟨r, hr, hc⟩ hbadu
        | some c =>
          have hf : (r.messageId == mid) = false := by
            rw [beq_eq_false_iff_ne]
            exact hfresh r (List.mem_append.2 (Or.inl hr))
          simp [isMessageToDelete, hc, hf]
      have h1 : findOrThrow (isMessageToDelete 0 mid) s.userMessages = some none :=
        findOrThrow_eq_some_none _ _ hup
      rw [h1]
      have hbadb : ∃ r ∈ s.botMessages, r.message.chat = none := by
        rcases hbad with ⟨r, hr, hc⟩
        rcases List.mem_append.1 hr with hr' | hr'
        · exact absurd ⟨r, hr', hc⟩ hbadu
        · exact ⟨r, hr', hc⟩
      have h2 : findOrThrow (isMessageToDelete 0 mid) s.botMessages = none := by
        refine findOrThrow_eq_none _ _
          (fun r hr => hnt r (List.mem_append.2 (Or.inr hr))) ?_
        rcases hbadb with ⟨r, hr, hc⟩
        exact ⟨r, hr, by simp [isMessageToDelete, hc]⟩
      rw [h2]

/-- Witness for C10: a store of well-formed records never throws; a store
holding a chat-less record throws on some arguments. -/
theorem deleteMessage_totality_witness :
    (deleteMessage exTieState 1 1).isSome ∧
    ∃ chatId mid, deleteMessage exChatlessState chatId mid = none := by
  constructor
  · exact (deleteMessage_totality exTieState).1 (by decide) (by decide) 1 1
  · exact (deleteMessage_totality exChatlessState).2 ⟨chatlessRecord, by decide, rfl⟩

/-- C1 counterexample: on a store holding one matching user record and one
matching bot record for chat 1, messageId 1, the first `deleteMessage` call
removes the user-side record — the bot log is untouched and still holds its
matching record — contradicting the claim that the bot log is checked first
and the bot-side record removed first. -/
theorem deleteMessage_bot_first_counterexample :
    deleteMessage exTieState 1 1 = some (true, stateAfterFirstDelete) ∧
    stateAfterFirstDelete.botMessages = [exBotRecord] ∧
    stateAfterFirstDelete.userMessages = [] := by
  exact ⟨by decide, by decide, by decide⟩

/-- C1 (amended): on a store containing exactly one matching user record and
exactly one matching bot record (user log checked before bot log, the
source's actual order), the first `deleteMessage` call removes the user-side
record and returns true, the second removes the bot-side record and returns
true, and a third returns false.  Records are assumed well formed (`chat`
present) and `updateId`s duplicate-free per log, as in every reachable
store. -/
theorem deleteMessage_tie_break (s : ServerState) (chatId : Int) (mid : Nat)
    (u b : Record)
    (hwfU : ∀ r ∈ s.userMessages, (r.message.chat).isSome)
    (hwfB : ∀ r ∈ s.botMessages, (r.message.chat).isSome)
    (hu : s.userMessages.filter (matchesDelete chatId mid) = [u])
    (hb : s.botMessages.filter (matchesDelete chatId mid) = [b])
    (hnU : (s.userMessages.map Record.updateId).Nodup)
    (hnB : (s.botMessages.map Record.updateId).Nodup) :
    ∃ s1 s2,
      deleteMessage s chatId mid = some (true, s1) ∧
      s1.botMessages = s.botMessages ∧
      u ∉ s1.userMessages ∧
      (∀ r ∈ s.userMessages, r ≠ u → r ∈ s1.userMessages) ∧
      deleteMessage s1 chatId mid = some (true, s2) ∧
      s2.userMessages = s1.userMessages ∧
      b ∉ s2.botMessages ∧
      (∀ r ∈ s.botMessages, r ≠ b → r ∈ s2.botMessages) ∧
      deleteMessage s2 chatId mid = some (false, s2) := by
  have huMemF : u ∈ s.userMessages.filter (matchesDelete chatId mid) := by
    rw [hu]
    simp
  have huMem : u ∈ s.userMessages := (List.mem_filter.1 huMemF).1
  have hbMemF : b ∈ s.botMessages.filter (matchesDelete chatId mid) := by
    rw [hb]
    simp
  have hbMem : b ∈ s.botMessages := (List.mem_filter.1 hbMemF).1
  have huniqU : ∀ r ∈ s.userMessages, matchesDelete chatId mid r = true → r = u := by
    intro r hr hm
    have hrf : r ∈ s.userMessages.filter (matchesDelete chatId mid) :=
      List.mem_filter.2 ⟨hr, hm⟩
    rw [hu] at hrf
    simpa using hrf
  have huniqB : ∀ r ∈ s.botMessages, matchesDelete chatId mid r = true → r = b := by
    intro r hr hm
    have hrf : r ∈ s.botMessages.filter (matchesDelete chatId mid) :=
      List.mem_filter.2 ⟨hr, hm⟩
    rw [hb] at hrf
    simpa using hrf
  have hfind1 : findOrThrow (isMessageToDelete chatId mid) s.userMessages =
      some (some u) := by
    rw [findOrThrow_eq_find? chatId mid s.userMessages hwfU,
      find?_of_filter_singleton _ _ u hu]
  refine ⟨removeUserMessage s u.updateId,
    removeBotMessage (removeUserMessage s u.updateId) b.updateId, ?_⟩
  have hs1user : (removeUserMessage s u.updateId).userMessages =
      s.userMessages.filter (fun r => r.updateId != u.updateId) := rfl
  have hs1bot : (removeUserMessage s u.updateId).botMessages = s.botMessages := rfl
  have hcall1 : deleteMessage s chatId mid =
      some (true, removeUserMessage s u.updateId) := by
    unfold deleteMessage
    rw [hfind1]
  have hunotin : u ∉ (removeUserMessage s u.updateId).userMessages := by
    rw [hs1user]
    intro hmem
    have hcontra := (List.mem_filter.1 hmem).2
    simp at hcontra
  have hkeepU : ∀ r ∈ s.userMessages, r ≠ u →
      r ∈ (removeUserMessage s u.updateId).userMessages := by
    intro r hr hne
    rw [hs1user]
    refine List.mem_filter.2 ⟨hr, ?_⟩
    simp only [bne_iff_ne, ne_eq]
    intro heq
    exact hne (List.inj_on_of_nodup_map hnU hr huMem heq)
  have hsubU : ∀ r ∈ (removeUserMessage s u.updateId).userMessages,
      r ∈ s.userMessages := by
    intro r hr
    rw [hs1user] at hr
    exact (List.mem_filter.1 hr).1
  have hwfU1 : ∀ r ∈ (removeUserMessage s u.updateId).userMessages,
      (r.message.chat).isSome := fun r hr => hwfU r (hsubU r hr)
  have hfilterU1 : (removeUserMessage s u.updateId).userMessages.filter
      (matchesDelete chatId mid) = [] := by
    rw [List.filter_eq_nil_iff]
    intro r hr hm
    exact hunotin ((huniqU r (hsubU r hr) hm) ▸ hr)
  have hfind2u : findOrThrow (isMessageToDelete chatId mid)
      (removeUserMessage s u.updateId).userMessages = some none := by
    rw [findOrThrow_eq_find? chatId mid _ hwfU1,
      List.find?_eq_none.2 (List.filter_eq_nil_iff.1 hfilterU1)]
  have hfind2b : findOrThrow (isMessageToDelete chatId mid)
      (removeUserMessage s u.updateId).botMessages = some (some b) := by
    rw [hs1bot, findOrThrow_eq_find? chatId mid s.botMessages hwfB,
      find?_of_filter_singleton _ _ b hb]
  have hcall2 : deleteMessage (removeUserMessage s u.updateId) chatId mid =
      some (true, removeBotMessage (removeUserMessage s u.updateId) b.updateId) := by
    unfold deleteMessage
    rw [hfind2u, hfind2b]
  have hs2user : (removeBotMessage (removeUserMessage s u.updateId) b.updateId).userMessages =
      (removeUserMessage s u.updateId).userMessages := rfl
  have hs2bot : (removeBotMessage (removeUserMessage s u.updateId) b.updateId).botMessages =
      s.botMessages.filter (fun r => r.updateId != b.updateId) := rfl
  have hbnotin : b ∉ (removeBotMessage (removeUserMessage s u.updateId) b.updateId).botMessages := by
    rw [hs2bot]
    intro hmem
    have hcontra := (List.mem_filter.1 hmem).2
    simp at hcontra
  have hkeepB : ∀ r ∈ s.botMessages, r ≠ b →
      r ∈ (removeBotMessage (removeUserMessage s u.updateId) b.updateId).botMessages := by
    intro r hr hne
    rw [hs2bot]
    refine List.mem_filter.2 ⟨hr, ?_⟩
    simp only [bne_iff_ne, ne_eq]
    intro heq
    exact hne (List.inj_on_of_nodup_map hnB hr hbMem heq)
  have hsubB : ∀ r ∈ (removeBotMessage (removeUserMessage s u.updateId) b.updateId).botMessages,
      r ∈ s.botMessages := by
    intro r hr
    rw [hs2bot] at hr
    exact (List.mem_filter.1 hr).1
  have hwfB2 : ∀ r ∈ (removeBotMessage (removeUserMessage s u.updateId) b.updateId).botMessages,
      (r.message.chat).isSome := fun r hr => hwfB r (hsubB r hr)
  have hfilterB2 : (removeBotMessage (removeUserMessage s u.updateId) b.updateId).botMessages.filter
      (matchesDelete chatId mid) = [] := by
    rw [List.filter_eq_nil_iff]
    intro r hr hm
    exact hbnotin ((huniqB r (hsubB r hr) hm) ▸ hr)
  have hfind3u : findOrThrow (isMessageToDelete chatId mid)
      (removeBotMessage (removeUserMessage s u.updateId) b.updateId).userMessages =
      some none := by
    rw [hs2user]
    exact hfind2u
  have hfind3b : findOrThrow (isMessageToDelete chatId mid)
      (removeBotMessage (removeUserMessage s u.updateId) b.updateId).botMessages =
      some none := by
    rw [findOrThrow_eq_find? chatId mid _ hwfB2,
      List.find?_eq_none.2 (List.filter_eq_nil_iff.1 hfilterB2)]
  have hcall3 : deleteMessage
      (removeBotMessage (removeUserMessage s u.updateId) b.updateId) chatId mid =
      some (false, removeBotMessage (removeUserMessage s u.updateId) b.updateId) := by
    unfold deleteMessage
    rw [hfind3u, hfind3b]
  exact ⟨hcall1, hs1bot, hunotin, hkeepU, hcall2, hs2user, hbnotin, hkeepB, hcall3⟩

/-- Witness for C1 (amended) at the concrete duplicate store: the three
successive calls behave as user-delete, bot-delete, not-found. -/
theorem deleteMessage_tie_break_witness :
    deleteMessage exTieState 1 1 = some (true, stateAfterFirstDelete) ∧
    deleteMessage stateAfterFirstDelete 1 1 = some (true, stateAfterSecondDelete) ∧
    deleteMessage stateAfterSecondDelete 1 1 = some (false, stateAfterSecondDelete) := by
  obtain ⟨s1, s2, h1, _, _, _, h2, _, _, _, h3⟩ :=
    deleteMessage_tie_break exTieState 1 1 exUserRecord exBotRecord
      (by decide) (by decide) (by decide) (by decide) (by decide) (by decide)
  have hs1 : s1 = stateAfterFirstDelete := by
    have hc : deleteMessage exTieState 1 1 = some (true, stateAfterFirstDelete) := by decide
    rw [h1] at hc
    simpa using hc
  subst hs1
  have hs2 : s2 = stateAfterSecondDelete := by
    have hc : deleteMessage stateAfterFirstDelete 1 1 =
        some (true, stateAfterSecondDelete) := by decide
    rw [h2] at hc
    simpa using hc
  subst hs2
  exact ⟨h1, h2, h3⟩

/-- Witness for C3 on a concrete two-append interleaving. -/
theorem ids_strictly_increasing_witness :
    ((assignedUpdateIds (initialState 60000)
        [Op.bot payloadA "tok" 0, Op.user payloadA 1]).Pairwise (· < ·)) ∧
    ((assignedMessageIds (initialState 60000)
        [Op.bot payloadA "tok" 0, Op.user payloadA 1]).Pairwise (· < ·)) :=
  ids_strictly_increasing 60000 [Op.bot payloadA "tok" 0, Op.user payloadA 1]

/-- Witness for C8 on a concrete daemon run that outlives its stop time. -/
theorem cleanUpDaemon_period_and_stop_witness :
    List.Chain' (fun a b => b = a + exTieState.storeTimeout)
      (cleanUpDaemonRun 5 3 0 exTieState).2 ∧
    (∀ x ∈ (cleanUpDaemonRun 5 3 0 exTieState).2, x < 5) ∧
    ((cleanUpDaemonRun 5 3 0 exTieState).2.filter
        (fun x => decide ((5 : Int) ≤ x))).length ≤ 1 :=
  cleanUpDaemon_period_and_stop 5 0 3 exTieState
